import Mathlib

/-!
Verification of the agent lineage tracking subsystem
(`src/lineage_tracker.py` of the bigeye-mcp-server repository).

The Python module is shallowly embedded: the tracker object becomes an
explicit `TrackerState`, Python dicts/sets become association lists /
duplicate-free lists (preserving insertion order), remote (async) calls
become a pure environment `Env` of response functions, and every public
method becomes a Lean function that also returns the list of remote
mutation calls it issued (the "trace"), so that claims about calls being
issued or suppressed can be stated.

Python truthiness is modelled explicitly where the source relies on it
(`if node_id:`, `if self.agent_node_id:`, `if column:`), as is the
behaviour of `datetime` comparison between offset-naive and offset-aware
values (which raises `TypeError` in Python).
-/

namespace LineageTracker

/-- Python `str.split(sep)` for a single-character separator, keeping
empty chunks (`"".split(".") == [""]`): accumulator-style split of the
character list. -/
def splitCharAux (sep : Char) : List Char → List Char → List String
  | [], acc => [String.mk acc.reverse]
  | c :: rest, acc =>
      if c == sep then String.mk acc.reverse :: splitCharAux sep rest []
      else splitCharAux sep rest (c :: acc)

/-- Python `str.split(sep)` on a string, single-character separator. -/
def pySplit (sep : Char) (s : String) : List String :=
  splitCharAux sep s.toList []

/-- Python `str.upper()` (character-wise upper-casing; the identifiers
at hand are ASCII). -/
def pyUpper (s : String) : String := String.mk (s.toList.map Char.toUpper)

/-- Python `str.islower()` treats a character as cased when it has an
upper/lower variant; for the ASCII identifiers at hand this is exactly
"is a letter". -/
def pyCased (c : Char) : Bool := c.isUpper || c.isLower

/-- Python `str.islower()`: at least one cased character, and every cased
character is lower-case. -/
def pyIsLower (s : String) : Bool :=
  s.toList.any pyCased && s.toList.all (fun c => !pyCased c || c.isLower)

/-- Result of `parse_qualified_name` (the dictionary built on the success
paths of `src/lineage_tracker.py` lines 75-113). -/
structure ParsedName where
  warehouse : Option String
  database : String
  schema : String
  table : String
  column : Option String
deriving DecidableEq, Repr

/-- `parse_qualified_name` (lines 58-116).  The second component is the
diagnostic emitted via `debug_print` on the invalid-format path (line
115); the success paths emit no diagnostic.  `"_" in parts[-1]` is
single-character containment. -/
def parseQualifiedName (qualified_name : String) :
    Option ParsedName × Option String :=
  match pySplit '.' qualified_name with
  | [a, b, c] =>
      (some ⟨none, a, b, c, none⟩, none)
  | [a, b, c, d] =>
      if pyIsLower d || d.toList.contains '_' then
        (some ⟨none, a, b, c, some d⟩, none)
      else
        (some ⟨some a, b, c, d, none⟩, none)
  | [a, b, c, d, e] =>
      (some ⟨some a, b, c, d, some e⟩, none)
  | _ =>
      (none, some ("Invalid qualified name format: " ++ qualified_name))

/-- Column sets (`Set[str]` in Python) as insertion-ordered
duplicate-free lists. -/
abbrev ColSet := List String

/-- Inner table map of `accessed_assets`. -/
abbrev TableMap := List (String × ColSet)

/-- Middle schema map of `accessed_assets`. -/
abbrev SchemaMap := List (String × TableMap)

/-- `accessed_assets`: {database: {schema: {table: Set[columns]}}}
(a `defaultdict` nest in the source), as nested association lists. -/
abbrev Assets := List (String × SchemaMap)

/-- Python `set.add`: insert if absent (insertion order at the end). -/
def addCol (c : String) (cols : ColSet) : ColSet :=
  if c ∈ cols then cols else cols ++ [c]

/-- Association-list lookup (first matching key), the model of Python
dict indexing. -/
def lookupA {β : Type} (k : String) : List (String × β) → Option β
  | [] => none
  | (k', v) :: rest => if k' = k then some v else lookupA k rest

/-- `defaultdict` access-and-mutate: apply `f` to the entry at `k`,
creating it from the default `dflt` when absent. -/
def upsert {β : Type} (k : String) (f : β → β) (dflt : β) :
    List (String × β) → List (String × β)
  | [] => [(k, f dflt)]
  | (k', v) :: rest =>
      if k' = k then (k', f v) :: rest else (k', v) :: upsert k f dflt rest

/-- The state of an `AgentLineageTracker` instance (`__init__`,
lines 19-51).  `hasClient` models whether `bigeye_client` is set. -/
structure TrackerState where
  hasClient : Bool
  agentName : String
  workspaceId : Option Int
  debug : Bool
  accessedAssets : Assets
  nodeCache : List (String × Int)
  agentNodeId : Option Int
  createdEdges : List (Int × Int)
deriving DecidableEq, Repr

/-- The mark added to a table's column set by `track_asset_access`:
`column = parsed["column"].upper() if parsed["column"] else None`
(Python string truthiness: the empty string counts as no column), then
either the upper-cased column or the wildcard `"*"`. -/
def trackMark (p : ParsedName) : String :=
  match p.column with
  | some c => if c = "" then "*" else pyUpper c
  | none => "*"

/-- The nested `defaultdict` insertion
`self.accessed_assets[database][schema][table].add(mark)` with the
upper-cased keys of a parsed name. -/
def trackInsert (p : ParsedName) (a : Assets) : Assets :=
  upsert (pyUpper p.database)
    (fun schs => upsert (pyUpper p.schema)
      (fun tbls => upsert (pyUpper p.table) (addCol (trackMark p)) [] tbls)
      [] schs)
    [] a

/-- One iteration of the `track_asset_access` loop (lines 124-138) for a
single qualified name. -/
def trackOne (st : TrackerState) (name : String) : TrackerState :=
  match (parseQualifiedName name).1 with
  | none => st
  | some p =>
      { st with accessedAssets := trackInsert p st.accessedAssets }

/-- `track_asset_access` (lines 118-138). -/
def trackAssetAccess (st : TrackerState) (qualified_names : List String) :
    TrackerState :=
  qualified_names.foldl trackOne st

/-- Flatten the nested `accessed_assets` structure in iteration order;
the triple-nested `for` loops of the source iterate exactly this list. -/
def flattenAssets (a : Assets) : List ((String × String × String) × ColSet) :=
  a.flatMap (fun dbp =>
    dbp.2.flatMap (fun scp =>
      scp.2.map (fun tp => ((dbp.1, scp.1, tp.1), tp.2))))

/-- One `table_info` entry of `get_tracked_assets` (lines 155-160). -/
structure TableInfo where
  database : String
  schema : String
  table : String
  columns : List String
deriving DecidableEq, Repr

/-- The summary dictionary returned by `get_tracked_assets`. -/
structure TrackedSummary where
  tables : List TableInfo
  total_tables : Nat
  total_columns : Nat
deriving DecidableEq, Repr

/-- The body of the `get_tracked_assets` table loop (lines 154-164). -/
def summaryStep (acc : TrackedSummary)
    (entry : (String × String × String) × ColSet) : TrackedSummary :=
  { tables := acc.tables ++
      [⟨entry.1.1, entry.1.2.1, entry.1.2.2,
        if "*" ∈ entry.2 then ["*"] else entry.2⟩],
    total_tables := acc.total_tables + 1,
    total_columns := acc.total_columns +
      (if "*" ∈ entry.2 then 0 else entry.2.length) }

/-- `get_tracked_assets` (lines 140-166). -/
def getTrackedAssets (s : TrackerState) : TrackedSummary :=
  (flattenAssets s.accessedAssets).foldl summaryStep ⟨[], 0, 0⟩

/-- `clear_tracked_assets` (lines 168-172): clears `accessed_assets` and
`created_edges`, touching nothing else. -/
def clearTrackedAssets (s : TrackerState) : TrackerState :=
  { s with accessedAssets := [], createdEdges := [] }

/-- Look up the column set tracked for a (database, schema, table)
triple, through the three nesting levels. -/
def lookupCols (a : Assets) (d sc t : String) : Option ColSet :=
  (lookupA d a).bind (fun schs => (lookupA sc schs).bind (lookupA t))

/-- Keys of one association-list level. -/
def keysOf {β : Type} (l : List (String × β)) : List String := l.map Prod.fst

/-- Well-formedness of the nested `accessed_assets` structure: at each
of the three dictionary levels the keys are duplicate-free.  Every state
the tracker can reach satisfies this (Python dictionaries cannot hold a
key twice), and `trackInsert` preserves it. -/
def AssetsWF (a : Assets) : Prop :=
  (keysOf a).Nodup ∧
  ∀ p ∈ a, (keysOf p.2).Nodup ∧ ∀ q ∈ p.2, (keysOf q.2).Nodup

/-- The `table_info` record built for one flattened entry
(lines 155-160). -/
def mkInfo (entry : (String × String × String) × ColSet) : TableInfo :=
  ⟨entry.1.1, entry.1.2.1, entry.1.2.2,
   if "*" ∈ entry.2 then ["*"] else entry.2⟩

/-- Column-count contribution of one flattened entry (lines 163-164). -/
def colContrib (entry : (String × String × String) × ColSet) : Nat :=
  if "*" ∈ entry.2 then 0 else entry.2.length

/-! ## The remote API environment -/

/-- A parsed JSON response from the remote lineage API, as probed by the
source: a truthiness-checked `error` flag, a `nodes` list (only
`nodes[0]["id"]` is ever read), an `id` field (node creation) and a
`message` (error text). -/
structure ApiResult where
  error : Bool
  nodes : List Int
  id : Option Int
  message : String
deriving DecidableEq, Repr

/-- Outcome of `datetime.fromisoformat(created_at.replace("Z", "+00:00"))`
on an edge's `created_at` string, on a single linear time axis:
`empty` for `created_at == ""` (the `if created_at:` guard fails),
`malformed` for strings `fromisoformat` rejects (raises `ValueError`),
`naive` for timestamps without a UTC offset, and `aware` for timestamps
that carried `Z` or an explicit offset (the replacement makes `Z` parse
as `+00:00`, producing an offset-aware datetime). -/
inductive CreatedAt where
  | empty
  | malformed
  | naive (t : Int)
  | aware (t : Int)
deriving DecidableEq, Repr

/-- An edge record from `get_lineage_edges_for_node`; the endpoint ids
are read with `.get`, hence optional. -/
structure LineageEdge where
  id : Int
  upstream_node_id : Option Int
  downstream_node_id : Option Int
  created_at : CreatedAt
deriving DecidableEq, Repr

/-- Response of `get_lineage_edges_for_node`. -/
structure EdgesResult where
  error : Bool
  edges : List LineageEdge
deriving DecidableEq, Repr

/-- The remote Bigeye client, as a deterministic environment of response
functions (the source awaits each call and only inspects the parsed
response).  `none` models a falsy response (`None` or `{}`).
`createEdge u d` is the truthiness of
`edge_result and not edge_result.get("error")` for
`create_lineage_edge(upstream_node_id=u, downstream_node_id=d, ...)`;
`deleteEdge i` likewise for `delete_lineage_edge(edge_id=i)`. -/
structure Env where
  findNodeByName : Option String → Option ApiResult
  createNode : Option ApiResult
  getNodeByEntity : Nat → Option ApiResult
  findTableNode : String → String → String → Option ApiResult
  findColumnNode : String → String → String → String → Option ApiResult
  createEdge : Int → Int → Bool
  getEdgesForNode : Int → Option EdgesResult
  deleteEdge : Int → Bool

/-- Python truthiness of an optional integer (`if node_id:`,
`if self.agent_node_id:`): false for `None` and for `0`. -/
def optTruthy : Option Int → Bool
  | none => false
  | some n => n != 0

/-- The recurring probe
`result and not result.get("error")`, then `nodes = result.get("nodes", [])`,
`if nodes: nodes[0]["id"]`: yields the first node id when the response is
truthy, not an error, and has a non-empty node list. -/
def nodesFirst : Option ApiResult → Option Int
  | none => none
  | some r => if r.error then none else r.nodes.head?

/-- Whether the pattern `pat` occurs at the head of `cs`. -/
def patAt : List Char → List Char → Bool
  | [], _ => true
  | _ :: _, [] => false
  | p :: ps, c :: cs => p == c && patAt ps cs

/-- Whether the pattern `pat` occurs anywhere in `cs`
(Python `pat in s`). -/
def hasPat (pat : List Char) : List Char → Bool
  | [] => pat.isEmpty
  | c :: rest => patAt pat (c :: rest) || hasPat pat rest

/-- Numeric value of a digit run. -/
def digitsVal (ds : List Char) : Nat :=
  ds.foldl (fun acc c => acc * 10 + (c.toNat - '0'.toNat)) 0

/-- Match `re.search(r'DataNodeEntity\((\d+)\)', msg)` at one position:
the literal `DataNodeEntity(`, a non-empty maximal digit run, then `)`. -/
def entityAt (cs : List Char) : Option Nat :=
  if patAt "DataNodeEntity(".toList cs then
    let rest := cs.drop ("DataNodeEntity(".toList.length)
    let ds := rest.takeWhile Char.isDigit
    if ds.isEmpty then none
    else
      match rest.drop ds.length with
      | ')' :: _ => some (digitsVal ds)
      | _ => none
  else none

/-- Leftmost match of the `DataNodeEntity(\d+)` pattern. -/
def scanEntity : List Char → Option Nat
  | [] => none
  | c :: rest =>
      match entityAt (c :: rest) with
      | some n => some n
      | none => scanEntity rest

/-- `re.search(r'DataNodeEntity\((\d+)\)', error_msg)` with
`int(match.group(1))` (lines 222-224). -/
def extractEntityId (s : String) : Option Nat :=
  scanEntity s.toList

/-- `ensure_agent_node` (lines 174-255).  Returns the resolved agent
node id (or `none`) together with the updated tracker state.  A `None`
`create_result` makes `create_result.get(...)` raise, which the
enclosing `except` turns into a `None` return. -/
def ensureAgentNode (env : Env) (s : TrackerState) :
    Option Int × TrackerState :=
  if !s.hasClient then (none, s)
  else if optTruthy s.agentNodeId then (s.agentNodeId, s)
  else
    match nodesFirst (env.findNodeByName (some "DATA_NODE_TYPE_CUSTOM")) with
    | some n => (some n, { s with agentNodeId := some n })
    | none =>
        match env.createNode with
        | some r =>
            if !r.error then
              (r.id, { s with agentNodeId := r.id })
            else if hasPat "already exists".toList r.message.toList then
              match
                (match extractEntityId r.message with
                 | some eid => nodesFirst (env.getNodeByEntity eid)
                 | none => none) with
              | some n => (some n, { s with agentNodeId := some n })
              | none =>
                  match nodesFirst (env.findNodeByName none) with
                  | some n => (some n, { s with agentNodeId := some n })
                  | none => (none, s)
            else (none, s)
        | none => (none, s)

/-! ## The edge-commit loop -/

/-- Which branch of `create_lineage_edges` issued an edge-creation call:
the wildcard table branch (line 369), the column branch (line 385), or
the table-level fallback for an unresolved column (line 398). -/
inductive EdgeCallKind where
  | table
  | column
  | fallback
deriving DecidableEq, Repr

/-- One `create_lineage_edge` remote call issued by the commit loop,
with its arguments and whether the remote reported success. -/
structure EdgeCall where
  upstream : Int
  downstream : Int
  kind : EdgeCallKind
  ok : Bool
deriving DecidableEq, Repr

/-- The (upstream, downstream) pair of a call — the `edge_key` of the
source. -/
def pairOf (c : EdgeCall) : Int × Int := (c.upstream, c.downstream)

/-- The mutable loop state of `create_lineage_edges`: the node cache and
created-edge set (fields of the tracker) plus the local accumulators
`edges_created`, `errors`, `assets_not_in_catalog`. -/
structure LoopSt where
  cache : List (String × Int)
  created : List (Int × Int)
  count : Nat
  errors : List String
  notFound : List String
deriving DecidableEq, Repr

/-- `find_asset_node_id` (lines 257-321), acting on the node cache part
of the loop state. -/
def findAssetNodeId (env : Env) (cl : Bool) (db sch tbl : String)
    (col : Option String) (st : LoopSt) : Option Int × LoopSt :=
  if !cl then (none, st)
  else
    let key :=
      pyUpper
        (match col with
         | some c => db ++ "." ++ sch ++ "." ++ tbl ++ "." ++ c
         | none => db ++ "." ++ sch ++ "." ++ tbl)
    match lookupA key st.cache with
    | some v => (some v, st)
    | none =>
        let res :=
          match col with
          | some c => env.findColumnNode db sch tbl c
          | none => env.findTableNode db sch tbl
        match nodesFirst res with
        | some n => (some n, { st with cache := st.cache ++ [(key, n)] })
        | none => (none, st)

/-- The guarded edge-creation block shared by the three branches:
`if edge_key not in self.created_edges: success = _create_edge(...); ...`.
Only the `table` and `column` branches append an error message on
failure; the `fallback` branch (lines 398-402) has no `else`. -/
def attemptEdge (env : Env) (agentId nodeId : Int) (kind : EdgeCallKind)
    (name : String) (st : LoopSt) : LoopSt × List EdgeCall :=
  if (nodeId, agentId) ∈ st.created then (st, [])
  else if env.createEdge nodeId agentId then
    ({ st with count := st.count + 1,
               created := st.created ++ [(nodeId, agentId)] },
     [⟨nodeId, agentId, kind, true⟩])
  else
    (match kind with
     | .table =>
         { st with errors :=
             st.errors ++ ["Failed to create edge for table " ++ name] }
     | .column =>
         { st with errors :=
             st.errors ++ ["Failed to create edge for column " ++ name] }
     | .fallback => st,
     [⟨nodeId, agentId, kind, false⟩])

/-- The column-level body (lines 380-404): resolve the column node; on
success attempt the column edge, otherwise fall back to the table node,
and if even that is unresolved record the column as not in catalog. -/
def processColumn (env : Env) (cl : Bool) (agentId : Int)
    (db sch tbl col : String) (st : LoopSt) : LoopSt × List EdgeCall :=
  let r := findAssetNodeId env cl db sch tbl (some col) st
  if optTruthy r.1 then
    attemptEdge env agentId (r.1.getD 0) .column
      (db ++ "." ++ sch ++ "." ++ tbl ++ "." ++ col) r.2
  else
    let r2 := findAssetNodeId env cl db sch tbl none r.2
    if optTruthy r2.1 then
      attemptEdge env agentId (r2.1.getD 0) .fallback
        (db ++ "." ++ sch ++ "." ++ tbl) r2.2
    else
      ({ r2.2 with notFound :=
           r2.2.notFound ++ [db ++ "." ++ sch ++ "." ++ tbl ++ "." ++ col] },
       [])

/-- Sequential composition of per-item steps, concatenating the call
traces — the shape of the nested `for` loops. -/
def foldTr {α : Type} (f : α → LoopSt → LoopSt × List EdgeCall) :
    List α → LoopSt → LoopSt × List EdgeCall
  | [], st => (st, [])
  | x :: xs, st =>
      let r1 := f x st
      let r2 := foldTr f xs r1.1
      (r2.1, r1.2 ++ r2.2)

/-- The per-table body of the commit loop (lines 360-404): the wildcard
branch creates a table-level edge, otherwise each tracked column is
processed. -/
def processAsset (env : Env) (cl : Bool) (agentId : Int)
    (entry : (String × String × String) × ColSet) (st : LoopSt) :
    LoopSt × List EdgeCall :=
  let db := entry.1.1
  let sch := entry.1.2.1
  let tbl := entry.1.2.2
  let cols := entry.2
  if "*" ∈ cols then
    let r := findAssetNodeId env cl db sch tbl none st
    if optTruthy r.1 then
      attemptEdge env agentId (r.1.getD 0) .table
        (db ++ "." ++ sch ++ "." ++ tbl) r.2
    else
      ({ r.2 with notFound :=
           r.2.notFound ++ [db ++ "." ++ sch ++ "." ++ tbl] }, [])
  else
    foldTr (fun col => processColumn env cl agentId db sch tbl col) cols st

/-- The result dictionary of `create_lineage_edges`; absent keys are
`none` (the three return sites build dictionaries with different keys). -/
structure CommitResult where
  success : Bool
  error : Option String := none
  message : Option String := none
  edges_created : Option Nat := none
  assets_tracked : Option TrackedSummary := none
  assets_not_in_catalog : Option (List String) := none
  errors : Option (List String) := none
  summary : Option String := none
deriving DecidableEq, Repr

/-- The main loop of `create_lineage_edges` (lines 357-404): fold
`processAsset` over the flattened tracked assets, starting from the
tracker's node cache and created-edge set with fresh accumulators. -/
def commitLoop (env : Env) (cl : Bool) (agentId : Int) (s1 : TrackerState) :
    LoopSt × List EdgeCall :=
  foldTr (processAsset env cl agentId) (flattenAssets s1.accessedAssets)
    ⟨s1.nodeCache, s1.createdEdges, 0, [], []⟩

/-- `create_lineage_edges` (lines 323-413).  Returns the result
dictionary, the updated tracker state, and the trace of
`create_lineage_edge` remote calls issued. -/
def createLineageEdges (env : Env) (s : TrackerState) :
    CommitResult × TrackerState × List EdgeCall :=
  if !s.hasClient then
    ({ success := false, error := some "No Bigeye client configured" }, s, [])
  else if s.accessedAssets.isEmpty then
    ({ success := true, message := some "No assets tracked",
       edges_created := some 0 }, s, [])
  else
    let ra := ensureAgentNode env s
    if !optTruthy ra.1 then
      ({ success := false,
         error := some "Failed to create or find agent node" }, ra.2, [])
    else
      let rl := commitLoop env s.hasClient (ra.1.getD 0) ra.2
      ({ success := rl.1.errors.isEmpty,
         edges_created := some rl.1.count,
         assets_tracked := some (getTrackedAssets ra.2),
         assets_not_in_catalog :=
           if rl.1.notFound.isEmpty then none else some rl.1.notFound,
         errors := if rl.1.errors.isEmpty then none else some rl.1.errors,
         summary := some ("Created " ++ toString rl.1.count ++
           " lineage edges") },
       { ra.2 with nodeCache := rl.1.cache, createdEdges := rl.1.created },
       rl.2)

/-! ## The retention sweep -/

/-- The result dictionary of `cleanup_old_edges`. -/
structure CleanupResult where
  success : Bool
  error : Option String := none
  edges_deleted : Option Nat := none
  agent_edges_checked : Option Nat := none
  total_edges_returned : Option Nat := none
  retention_days : Option Int := none
  cutoff_date : Option Int := none
  errors : Option (List String) := none
deriving DecidableEq, Repr

/-- Accumulator of the cleanup loop: deletion/check counters, the error
list, and the trace of edges for which a `delete_lineage_edge` call was
issued. -/
structure SweepAcc where
  deleted : Nat
  checked : Nat
  errors : List String
  trace : List LineageEdge
deriving DecidableEq, Repr

/-- The per-edge body of the cleanup loop (lines 496-529).  Edges not
touching the agent are skipped before anything else.  Comparing an
offset-aware parsed datetime with the offset-naive cutoff raises
`TypeError`, which the per-edge `except` records as an error (the
`str(e)`/`{delete_result}` suffixes of the messages are abbreviated;
no claim inspects the text). -/
def sweepEdge (env : Env) (agentId : Int) (cutoff : Int) (acc : SweepAcc)
    (edge : LineageEdge) : SweepAcc :=
  if edge.upstream_node_id ≠ some agentId ∧
     edge.downstream_node_id ≠ some agentId then acc
  else
    let acc := { acc with checked := acc.checked + 1 }
    match edge.created_at with
    | .empty => acc
    | .malformed =>
        { acc with errors :=
            acc.errors ++ ["Error processing edge " ++ toString edge.id] }
    | .aware _ =>
        { acc with errors :=
            acc.errors ++ ["Error processing edge " ++ toString edge.id] }
    | .naive t =>
        if t < cutoff then
          if env.deleteEdge edge.id then
            { acc with deleted := acc.deleted + 1,
                       trace := acc.trace ++ [edge] }
          else
            { acc with
                errors := acc.errors ++
                  ["Failed to delete edge " ++ toString edge.id],
                trace := acc.trace ++ [edge] }
        else acc

/-- `cleanup_old_edges` (lines 447-548).  `now` is the value of
`datetime.now()` (offset-naive) and time is counted in seconds, so
`cutoff = now - retention_days * 86400` models
`datetime.now() - timedelta(days=retention_days)`.  Returns the result
dictionary, the updated state, and the trace of edges for which a
deletion request was issued. -/
def cleanupOldEdges (env : Env) (now : Int) (retention_days : Int)
    (s : TrackerState) : CleanupResult × TrackerState × List LineageEdge :=
  if !s.hasClient then
    ({ success := false, error := some "No Bigeye client configured" }, s, [])
  else
    let ra := ensureAgentNode env s
    if !optTruthy ra.1 then
      ({ success := false, error := some "Failed to find agent node" },
       ra.2, [])
    else
      let agentId := ra.1.getD 0
      let cutoff := now - retention_days * 86400
      match env.getEdgesForNode agentId with
      | none =>
          ({ success := false, error := some "Failed to get edges" },
           ra.2, [])
      | some er =>
          if er.error then
            ({ success := false, error := some "Failed to get edges" },
             ra.2, [])
          else
            let acc := er.edges.foldl (sweepEdge env agentId cutoff)
              ⟨0, 0, [], []⟩
            ({ success := acc.errors.isEmpty,
               edges_deleted := some acc.deleted,
               agent_edges_checked := some acc.checked,
               total_edges_returned := some er.edges.length,
               retention_days := some retention_days,
               cutoff_date := some cutoff,
               errors := if acc.errors.isEmpty then none
                 else some acc.errors }, ra.2, acc.trace)

/-- Created-edge invariant of a commit-loop segment from created-edge
set `c` to `c'` issuing the calls `tr`: the set only grows and stays
duplicate-free, every call is issued for a pair not yet recorded at the
segment's start, every successful call's pair is recorded at the end,
and no two successful calls share a pair. -/
def EdgeInv (c c' : List (Int × Int)) (tr : List EdgeCall) : Prop :=
  (∀ p ∈ c, p ∈ c') ∧
  (c.Nodup → c'.Nodup) ∧
  (∀ x ∈ tr, pairOf x ∉ c) ∧
  (∀ x ∈ tr, x.ok = true → pairOf x ∈ c') ∧
  ((tr.filter (fun x => x.ok)).map pairOf).Nodup

/-- Number of failed edge-creation calls in a trace that the source
records in the `errors` list: failures of the wildcard-table and column
branches.  Failures of the table-level fallback branch (lines 398-402)
are not recorded. -/
def errCount (tr : List EdgeCall) : Nat :=
  (tr.filter (fun x => !x.ok && !(x.kind == EdgeCallKind.fallback))).length

/-- Full invariant of a commit-loop segment over the loop state: the
created-edge invariant plus exact accounting of the error list. -/
def LoopInv (st st' : LoopSt) (tr : List EdgeCall) : Prop :=
  EdgeInv st.created st'.created tr ∧
  st'.errors.length = st.errors.length + errCount tr

/-- A freshly-constructed tracker with a client configured, as built by
`__init__`: no assets, empty node cache, no agent node, no created
edges. -/
def initTracker : TrackerState :=
  ⟨true, "AI Agent - Test", none, false, [], [], none, []⟩

/-- Concrete state for the C6 witness: a wildcard and a column tracked
for the same table. -/
def trackerW6 : TrackerState :=
  trackAssetAccess initTracker ["d.s.t", "d.s.t.col_a"]

/-- Tracker with one whole-table (wildcard) access tracked. -/
def trackerT : TrackerState := trackAssetAccess initTracker ["d.s.t"]

/-- `trackerT` with the agent node already memoized. -/
def trackerTA : TrackerState := { trackerT with agentNodeId := some 5 }

/-- Tracker with one column access tracked and the agent node already
memoized. -/
def trackerCol : TrackerState :=
  { trackAssetAccess initTracker ["d.s.t.col_a"] with agentNodeId := some 5 }

/-- Environment on which agent-node resolution fails (name search and
node creation both return falsy responses). -/
def envFail : Env :=
  { findNodeByName := fun _ => none,
    createNode := none,
    getNodeByEntity := fun _ => none,
    findTableNode := fun _ _ _ => some ⟨false, [3], none, ""⟩,
    findColumnNode := fun _ _ _ _ => some ⟨false, [], none, ""⟩,
    createEdge := fun _ _ => false,
    getEdgesForNode := fun _ => none,
    deleteEdge := fun _ => false }

/-- Environment on which node creation yields agent id 5, table lookup
finds node 3, column lookup finds node 7, and edge creation succeeds. -/
def envOk : Env :=
  { findNodeByName := fun _ => none,
    createNode := some ⟨false, [], some 5, ""⟩,
    getNodeByEntity := fun _ => none,
    findTableNode := fun _ _ _ => some ⟨false, [3], none, ""⟩,
    findColumnNode := fun _ _ _ _ => some ⟨false, [7], none, ""⟩,
    createEdge := fun _ _ => true,
    getEdgesForNode := fun _ => some ⟨false, []⟩,
    deleteEdge := fun _ => true }

/-- A tracker with the agent node id 5 already memoized and nothing
tracked. -/
def trackerA : TrackerState := { initTracker with agentNodeId := some 5 }

/-- An old edge (offset-free timestamp) touching agent node 5. -/
def edgeA : LineageEdge := ⟨3, some 5, some 6, CreatedAt.naive (-100)⟩

/-- An old edge between two ordinary nodes (neither endpoint is the
agent). -/
def edgeB : LineageEdge := ⟨2, some 8, some 9, CreatedAt.naive (-100)⟩

/-- An old edge touching agent node 5 whose `created_at` carried a `Z`
suffix, hence parses to an offset-aware datetime. -/
def edgeZ : LineageEdge := ⟨1, some 7, some 5, CreatedAt.aware (-100)⟩

/-- Edges response holding one agent edge and one non-agent edge. -/
def erW : EdgesResult := ⟨false, [edgeA, edgeB]⟩

/-- Environment for the C1 witness: returns `erW` and deletes
successfully. -/
def envSweep : Env :=
  { findNodeByName := fun _ => none,
    createNode := none,
    getNodeByEntity := fun _ => none,
    findTableNode := fun _ _ _ => none,
    findColumnNode := fun _ _ _ _ => none,
    createEdge := fun _ _ => false,
    getEdgesForNode := fun _ => some erW,
    deleteEdge := fun _ => true }

/-- Environment for the C8 failing input: one old agent edge with an
offset-aware timestamp, one with an offset-free timestamp. -/
def envTz : Env :=
  { findNodeByName := fun _ => none,
    createNode := none,
    getNodeByEntity := fun _ => none,
    findTableNode := fun _ _ _ => none,
    findColumnNode := fun _ _ _ _ => none,
    createEdge := fun _ _ => false,
    getEdgesForNode := fun _ => some ⟨false, [edgeZ, edgeA]⟩,
    deleteEdge := fun _ => true }

/-- Environment for the C5 scenario: column lookup succeeds with no
nodes (column not in catalog), table lookup finds node 3, and every
edge-creation call fails. -/
def envC5 : Env :=
  { findNodeByName := fun _ => none,
    createNode := none,
    getNodeByEntity := fun _ => none,
    findTableNode := fun _ _ _ => some ⟨false, [3], none, ""⟩,
    findColumnNode := fun _ _ _ _ => some ⟨false, [], none, ""⟩,
    createEdge := fun _ _ => false,
    getEdgesForNode := fun _ => none,
    deleteEdge := fun _ => false }

/-! ## Claims about the qualified-name parser -/

/-- C4: `parse` assigns fields by segment count: 3 segments yield
{database, schema, table} with no warehouse and no column; 4 segments
yield {database, schema, table, column} (no warehouse) when the last
segment is lower-case or contains an underscore and
{warehouse, database, schema, table} (no column) otherwise; 5 segments
yield {warehouse, database, schema, table, column}. -/
theorem claim_C4_parse_segment_assignment (input a b c d e : String) :
    (pySplit '.' input = [a, b, c] →
      parseQualifiedName input = (some ⟨none, a, b, c, none⟩, none)) ∧
    (pySplit '.' input = [a, b, c, d] →
      (pyIsLower d || d.toList.contains '_') = true →
      parseQualifiedName input = (some ⟨none, a, b, c, some d⟩, none)) ∧
    (pySplit '.' input = [a, b, c, d] →
      (pyIsLower d || d.toList.contains '_') = false →
      parseQualifiedName input = (some ⟨some a, b, c, d, none⟩, none)) ∧
    (pySplit '.' input = [a, b, c, d, e] →
      parseQualifiedName input = (some ⟨some a, b, c, d, some e⟩, none)) := by
  refine ⟨fun h => ?_, fun h hc => ?_, fun h hc => ?_, fun h => ?_⟩
  · unfold parseQualifiedName
    rw [h]
  · unfold parseQualifiedName
    rw [h]
    show (if pyIsLower d || d.toList.contains '_' then
        ((some ⟨none, a, b, c, some d⟩ : Option ParsedName),
         (none : Option String))
      else (some ⟨some a, b, c, d, none⟩, none)) = _
    rw [hc]
    rfl
  · unfold parseQualifiedName
    rw [h]
    show (if pyIsLower d || d.toList.contains '_' then
        ((some ⟨none, a, b, c, some d⟩ : Option ParsedName),
         (none : Option String))
      else (some ⟨some a, b, c, d, none⟩, none)) = _
    rw [hc]
    rfl
  · unfold parseQualifiedName
    rw [h]

/-- Witness for C4 at concrete inputs of each segment shape. -/
theorem claim_C4_witness :
    parseQualifiedName "db.sch.tbl" =
      (some ⟨none, "db", "sch", "tbl", none⟩, none) ∧
    parseQualifiedName "db.sch.tbl.col_a" =
      (some ⟨none, "db", "sch", "tbl", some "col_a"⟩, none) ∧
    parseQualifiedName "WH.DB.SCH.TBL" =
      (some ⟨some "WH", "DB", "SCH", "TBL", none⟩, none) ∧
    parseQualifiedName "wh.db.sch.tbl.COL" =
      (some ⟨some "wh", "db", "sch", "tbl", some "COL"⟩, none) :=
  ⟨(claim_C4_parse_segment_assignment "db.sch.tbl" "db" "sch" "tbl" "" "").1
      (by decide),
   (claim_C4_parse_segment_assignment "db.sch.tbl.col_a"
      "db" "sch" "tbl" "col_a" "").2.1 (by decide) (by decide),
   (claim_C4_parse_segment_assignment "WH.DB.SCH.TBL"
      "WH" "DB" "SCH" "TBL" "").2.2.1 (by decide) (by decide),
   (claim_C4_parse_segment_assignment "wh.db.sch.tbl.COL"
      "wh" "db" "sch" "tbl" "COL").2.2.2 (by decide)⟩

/-- C9: an input whose segment count is not 3, 4 or 5 fails to parse
(`None` result) and the diagnostic carries the original input string. -/
theorem claim_C9_parse_invalid_format (input : String)
    (h3 : (pySplit '.' input).length ≠ 3)
    (h4 : (pySplit '.' input).length ≠ 4)
    (h5 : (pySplit '.' input).length ≠ 5) :
    parseQualifiedName input =
      (none, some ("Invalid qualified name format: " ++ input)) := by
  obtain ⟨parts, hp⟩ : ∃ parts, pySplit '.' input = parts := ⟨_, rfl⟩
  rw [hp] at h3 h4 h5
  unfold parseQualifiedName
  rw [hp]
  rcases parts with _ | ⟨a, _ | ⟨b, _ | ⟨c, _ | ⟨d, _ | ⟨e, _ | rest⟩⟩⟩⟩⟩ <;>
    simp_all

/-- Witness for C9 at the two-segment input `"a.b"`. -/
theorem claim_C9_witness :
    parseQualifiedName "a.b" =
      (none, some ("Invalid qualified name format: " ++ "a.b")) :=
  claim_C9_parse_invalid_format "a.b" (by decide) (by decide) (by decide)

/-! ## Claim about `clear_tracked_assets` -/

/-- C10: `clear_tracked_assets` empties exactly the tracked-asset map
and the created-edge set, and every other field of the tracker (node
cache, memoized agent node id, client, name, workspace, debug flag)
keeps its prior value. -/
theorem claim_C10_clear_frame (s : TrackerState) :
    (clearTrackedAssets s).accessedAssets = [] ∧
    (clearTrackedAssets s).createdEdges = [] ∧
    (clearTrackedAssets s).nodeCache = s.nodeCache ∧
    (clearTrackedAssets s).agentNodeId = s.agentNodeId ∧
    (clearTrackedAssets s).hasClient = s.hasClient ∧
    (clearTrackedAssets s).agentName = s.agentName ∧
    (clearTrackedAssets s).workspaceId = s.workspaceId ∧
    (clearTrackedAssets s).debug = s.debug :=
  ⟨rfl, rfl, rfl, rfl, rfl, rfl, rfl, rfl⟩

/-! ## Association-list lemmas -/

theorem lookupA_upsert_self {β : Type} (k : String) (f : β → β) (d : β)
    (l : List (String × β)) :
    lookupA k (upsert k f d l) = some (f ((lookupA k l).getD d)) := by
  induction l with
  | nil => simp [upsert, lookupA]
  | cons hd tl ih =>
      obtain ⟨k', v⟩ := hd
      by_cases hk : k' = k
      · subst hk
        simp [upsert, lookupA]
      · simp [upsert, lookupA, hk, ih]

theorem lookupA_upsert_ne {β : Type} {q k : String} (h : q ≠ k)
    (f : β → β) (d : β) (l : List (String × β)) :
    lookupA q (upsert k f d l) = lookupA q l := by
  induction l with
  | nil => simp [upsert, lookupA, Ne.symm h]
  | cons hd tl ih =>
      obtain ⟨k', v⟩ := hd
      by_cases hk : k' = k
      · subst hk
        simp [upsert, lookupA, Ne.symm h]
      · by_cases hq : k' = q
        · subst hq
          simp [upsert, lookupA, hk]
        · simp [upsert, lookupA, hk, hq, ih]

theorem upsert_of_lookupA {β : Type} {k : String} {v : β} {f : β → β}
    (l : List (String × β)) (hl : lookupA k l = some v) (hf : f v = v)
    (d : β) : upsert k f d l = l := by
  induction l with
  | nil => simp [lookupA] at hl
  | cons hd tl ih =>
      obtain ⟨k', w⟩ := hd
      by_cases hk : k' = k
      · subst hk
        simp [lookupA] at hl
        subst hl
        simp [upsert, hf]
      · simp [lookupA, hk] at hl
        simp [upsert, hk, ih hl]

theorem mem_of_lookupA {β : Type} {k : String} {v : β}
    {l : List (String × β)} (h : lookupA k l = some v) : (k, v) ∈ l := by
  induction l with
  | nil => simp [lookupA] at h
  | cons hd tl ih =>
      obtain ⟨k', w⟩ := hd
      by_cases hk : k' = k
      · subst hk
        simp [lookupA] at h
        subst h
        exact List.mem_cons_self _ _
      · simp [lookupA, hk] at h
        exact List.mem_cons_of_mem _ (ih h)

theorem lookupA_of_mem {β : Type} {k : String} {v : β}
    {l : List (String × β)} (hnd : (keysOf l).Nodup) (hm : (k, v) ∈ l) :
    lookupA k l = some v := by
  induction l with
  | nil => simp at hm
  | cons hd tl ih =>
      obtain ⟨k', w⟩ := hd
      simp only [keysOf, List.map_cons, List.nodup_cons] at hnd
      rcases List.mem_cons.mp hm with he | hm'
      · cases he
        simp [lookupA]
      · by_cases hk : k' = k
        · subst hk
          exact absurd (List.mem_map_of_mem Prod.fst hm') hnd.1
        · simpa [lookupA, hk] using ih hnd.2 hm'

theorem mem_addCol (x c : String) (l : ColSet) :
    x ∈ addCol c l ↔ x ∈ l ∨ x = c := by
  by_cases h : c ∈ l
  · simp only [addCol, if_pos h]
    exact ⟨Or.inl, fun hx => hx.elim id (fun e => e ▸ h)⟩
  · simp [addCol, if_neg h]

theorem addCol_nodup {c : String} {l : ColSet} (h : l.Nodup) :
    (addCol c l).Nodup := by
  by_cases hc : c ∈ l
  · simpa [addCol, if_pos hc] using h
  · rw [addCol, if_neg hc]
    simp [List.nodup_append, h, hc]

theorem addCol_of_mem {c : String} {l : ColSet} (h : c ∈ l) :
    addCol c l = l := by
  simp [addCol, if_pos h]

theorem keysOf_upsert {β : Type} (k : String) (f : β → β) (d : β)
    (l : List (String × β)) :
    keysOf (upsert k f d l) =
      if k ∈ keysOf l then keysOf l else keysOf l ++ [k] := by
  induction l with
  | nil => simp [upsert, keysOf]
  | cons hd tl ih =>
      obtain ⟨k', v⟩ := hd
      by_cases hk : k' = k
      · subst hk
        simp [upsert, keysOf]
      · simp only [upsert, if_neg hk, keysOf, List.map_cons, List.mem_cons,
          Ne.symm hk, false_or]
        rw [keysOf] at ih
        rw [ih]
        by_cases hmem : k ∈ List.map Prod.fst tl <;> simp [keysOf, hmem]

theorem keysOf_upsert_nodup {β : Type} {k : String} {f : β → β} {d : β}
    {l : List (String × β)} (h : (keysOf l).Nodup) :
    (keysOf (upsert k f d l)).Nodup := by
  rw [keysOf_upsert]
  by_cases hmem : k ∈ keysOf l
  · simpa [hmem] using h
  · rw [if_neg hmem]
    simp [List.nodup_append, h, hmem]

theorem mem_upsert_cases {β : Type} {k : String} {f : β → β} {d : β}
    {l : List (String × β)} {p : String × β} (hp : p ∈ upsert k f d l) :
    p ∈ l ∨ (∃ v, (k, v) ∈ l ∧ p = (k, f v)) ∨ p = (k, f d) := by
  induction l with
  | nil =>
      simp [upsert] at hp
      exact Or.inr (Or.inr hp)
  | cons hd tl ih =>
      obtain ⟨k', v⟩ := hd
      by_cases hk : k' = k
      · subst hk
        simp only [upsert, if_pos rfl] at hp
        rcases List.mem_cons.mp hp with he | hm
        · exact Or.inr (Or.inl ⟨v, List.mem_cons_self _ _, he⟩)
        · exact Or.inl (List.mem_cons_of_mem _ hm)
      · simp only [upsert, if_neg hk] at hp
        rcases List.mem_cons.mp hp with he | hm
        · exact Or.inl (he ▸ List.mem_cons_self _ _)
        · rcases ih hm with h1 | h2 | h3
          · exact Or.inl (List.mem_cons_of_mem _ h1)
          · obtain ⟨w, hw, he'⟩ := h2
            exact Or.inr (Or.inl ⟨w, List.mem_cons_of_mem _ hw, he'⟩)
          · exact Or.inr (Or.inr h3)

/-! ## Effect of one tracking insertion on lookups -/

theorem lookupCols_def (a : Assets) (d sc t : String) :
    lookupCols a d sc t =
      (lookupA d a).bind (fun schs => (lookupA sc schs).bind (lookupA t)) :=
  rfl

theorem bindChain_getD (a : Assets) (d sc t : String) :
    (lookupA t ((lookupA sc ((lookupA d a).getD [])).getD [])).getD [] =
      ((lookupA d a).bind
        (fun schs => (lookupA sc schs).bind (lookupA t))).getD [] := by
  rcases h1 : lookupA d a with _ | schs
  · simp [lookupA]
  · rcases h2 : lookupA sc schs with _ | tbls
    · simp [lookupA, h2]
    · simp [h2]

theorem lookupCols_trackInsert (p : ParsedName) (a : Assets)
    (d sc t : String) :
    lookupCols (trackInsert p a) d sc t =
      if d = pyUpper p.database ∧ sc = pyUpper p.schema ∧ t = pyUpper p.table
      then some (addCol (trackMark p) ((lookupCols a d sc t).getD []))
      else lookupCols a d sc t := by
  by_cases hd : d = pyUpper p.database
  · subst hd
    by_cases hsc : sc = pyUpper p.schema
    · subst hsc
      by_cases ht : t = pyUpper p.table
      · subst ht
        rw [if_pos ⟨rfl, rfl, rfl⟩]
        simp only [lookupCols_def]
        unfold trackInsert
        rw [lookupA_upsert_self]
        simp only [Option.some_bind]
        rw [lookupA_upsert_self]
        simp only [Option.some_bind]
        rw [lookupA_upsert_self, bindChain_getD]
      · rw [if_neg (by tauto)]
        simp only [lookupCols_def]
        unfold trackInsert
        rw [lookupA_upsert_self]
        simp only [Option.some_bind]
        rw [lookupA_upsert_self]
        simp only [Option.some_bind]
        rw [lookupA_upsert_ne ht]
        rcases h1 : lookupA (pyUpper p.database) a with _ | schs
        · simp [lookupA]
        · rcases h2 : lookupA (pyUpper p.schema) schs with _ | tbls
          · simp [lookupA, h2]
          · simp [h2]
    · rw [if_neg (by tauto)]
      simp only [lookupCols_def]
      unfold trackInsert
      rw [lookupA_upsert_self]
      simp only [Option.some_bind]
      rw [lookupA_upsert_ne hsc]
      rcases h1 : lookupA (pyUpper p.database) a with _ | schs
      · simp [lookupA]
      · simp
  · rw [if_neg (by tauto)]
    simp only [lookupCols_def]
    unfold trackInsert
    rw [lookupA_upsert_ne hd]

theorem lookupCols_trackOne_mono {s : TrackerState} {d sc t x : String}
    {cols : ColSet} (h : lookupCols s.accessedAssets d sc t = some cols)
    (hx : x ∈ cols) (name : String) :
    ∃ cols', lookupCols (trackOne s name).accessedAssets d sc t = some cols'
      ∧ x ∈ cols' := by
  unfold trackOne
  rcases hp : (parseQualifiedName name).1 with _ | p
  · exact ⟨cols, h, hx⟩
  · show ∃ cols', lookupCols (trackInsert p s.accessedAssets) d sc t = _ ∧ _
    rw [lookupCols_trackInsert]
    by_cases hc : d = pyUpper p.database ∧ sc = pyUpper p.schema ∧
        t = pyUpper p.table
    · rw [if_pos hc, h]
      exact ⟨_, rfl, (mem_addCol _ _ _).mpr (Or.inl hx)⟩
    · rw [if_neg hc]
      exact ⟨cols, h, hx⟩

theorem lookupCols_track_mono {d sc t x : String}
    (names : List String) (s : TrackerState) {cols : ColSet}
    (h : lookupCols s.accessedAssets d sc t = some cols) (hx : x ∈ cols) :
    ∃ cols', lookupCols (trackAssetAccess s names).accessedAssets d sc t
      = some cols' ∧ x ∈ cols' := by
  induction names generalizing s cols with
  | nil => exact ⟨cols, h, hx⟩
  | cons n ns ih =>
      obtain ⟨cols1, h1, hx1⟩ := lookupCols_trackOne_mono h hx n
      exact ih (trackOne s n) h1 hx1

/-! ## Well-formedness preservation -/

theorem AssetsWF_trackInsert {a : Assets} (p : ParsedName)
    (h : AssetsWF a) : AssetsWF (trackInsert p a) := by
  obtain ⟨hk, hin⟩ := h
  refine ⟨keysOf_upsert_nodup hk, ?_⟩
  intro q hq
  rcases mem_upsert_cases hq with hold | ⟨v, hv, he⟩ | he
  · exact hin q hold
  · subst he
    obtain ⟨hvk, hvin⟩ := hin (pyUpper p.database, v) hv
    refine ⟨keysOf_upsert_nodup hvk, ?_⟩
    intro r hr
    rcases mem_upsert_cases hr with hold' | ⟨w, hw, he'⟩ | he'
    · exact hvin r hold'
    · subst he'
      exact keysOf_upsert_nodup (hvin (pyUpper p.schema, w) hw)
    · subst he'
      simp [keysOf, upsert]
  · subst he
    refine ⟨?_, ?_⟩
    · simp [keysOf, upsert]
    · intro r hr
      simp [upsert] at hr
      subst hr
      simp [keysOf, upsert]

theorem AssetsWF_trackOne {s : TrackerState}
    (h : AssetsWF s.accessedAssets) (name : String) :
    AssetsWF (trackOne s name).accessedAssets := by
  unfold trackOne
  rcases (parseQualifiedName name).1 with _ | p
  · exact h
  · exact AssetsWF_trackInsert p h

theorem AssetsWF_track (names : List String) (s : TrackerState)
    (h : AssetsWF s.accessedAssets) :
    AssetsWF (trackAssetAccess s names).accessedAssets := by
  induction names generalizing s with
  | nil => exact h
  | cons n ns ih => exact ih (trackOne s n) (AssetsWF_trackOne h n)

/-! ## Flatten versus lookup -/

theorem mem_flattenAssets {a : Assets} {d sc t : String} {cols : ColSet} :
    ((d, sc, t), cols) ∈ flattenAssets a ↔
      ∃ schs, (d, schs) ∈ a ∧ ∃ tbls, (sc, tbls) ∈ schs ∧ (t, cols) ∈ tbls := by
  simp only [flattenAssets, List.mem_flatMap, List.mem_map, Prod.mk.injEq]
  constructor
  · rintro ⟨⟨d', schs⟩, hdb, ⟨sc', tbls⟩, hsc, ⟨t', cols'⟩, ht, ⟨he1, he2, he3⟩, he4⟩
    subst he1; subst he2; subst he3; subst he4
    exact ⟨schs, hdb, tbls, hsc, ht⟩
  · rintro ⟨schs, hdb, tbls, hsc, ht⟩
    exact ⟨(d, schs), hdb, ⟨(sc, tbls), hsc, ⟨(t, cols), ht, ⟨rfl, rfl, rfl⟩, rfl⟩⟩⟩

theorem lookupCols_decomp {a : Assets} {d sc t : String} {cols : ColSet}
    (h : lookupCols a d sc t = some cols) :
    ∃ schs tbls, lookupA d a = some schs ∧ lookupA sc schs = some tbls ∧
      lookupA t tbls = some cols := by
  rw [lookupCols_def] at h
  rcases h1 : lookupA d a with _ | schs <;> rw [h1] at h
  · simp at h
  · simp only [Option.some_bind] at h
    rcases h2 : lookupA sc schs with _ | tbls <;> rw [h2] at h
    · simp at h
    · exact ⟨schs, tbls, rfl, h2, by simpa using h⟩

theorem lookupCols_of_mem_flatten {a : Assets} {d sc t : String}
    {cols : ColSet} (h : AssetsWF a)
    (hm : ((d, sc, t), cols) ∈ flattenAssets a) :
    lookupCols a d sc t = some cols := by
  obtain ⟨schs, hdb, tbls, hsc, ht⟩ := mem_flattenAssets.mp hm
  obtain ⟨hk, hin⟩ := h
  have h1 := lookupA_of_mem hk hdb
  obtain ⟨hk2, hin2⟩ := hin (d, schs) hdb
  have h2 := lookupA_of_mem hk2 hsc
  have h3 := lookupA_of_mem (hin2 (sc, tbls) hsc) ht
  simp [lookupCols_def, h1, h2, h3]

theorem mem_flatten_of_lookupCols {a : Assets} {d sc t : String}
    {cols : ColSet} (h : lookupCols a d sc t = some cols) :
    ((d, sc, t), cols) ∈ flattenAssets a := by
  obtain ⟨schs, tbls, h1, h2, h3⟩ := lookupCols_decomp h
  exact mem_flattenAssets.mpr
    ⟨schs, mem_of_lookupA h1, tbls, mem_of_lookupA h2, mem_of_lookupA h3⟩

/-! ## The summary fold -/

theorem summaryStep_eq (acc : TrackedSummary)
    (e : (String × String × String) × ColSet) :
    summaryStep acc e = ⟨acc.tables ++ [mkInfo e], acc.total_tables + 1,
      acc.total_columns + colContrib e⟩ :=
  rfl

theorem foldl_summaryStep (l : List ((String × String × String) × ColSet))
    (acc : TrackedSummary) :
    l.foldl summaryStep acc =
      ⟨acc.tables ++ l.map mkInfo, acc.total_tables + l.length,
       acc.total_columns + (l.map colContrib).sum⟩ := by
  induction l generalizing acc with
  | nil => simp
  | cons e es ih =>
      show es.foldl summaryStep (summaryStep acc e) = _
      rw [ih, summaryStep_eq, TrackedSummary.mk.injEq]
      refine ⟨?_, ?_, ?_⟩
      · simp
      · simp only [List.length_cons]
        omega
      · simp only [List.map_cons, List.sum_cons]
        omega

theorem colContrib_mkInfo (e : (String × String × String) × ColSet) :
    (if (mkInfo e).columns = ["*"] then 0 else (mkInfo e).columns.length) =
      colContrib e := by
  unfold mkInfo colContrib
  by_cases h : "*" ∈ e.2
  · simp [h]
  · have hne : e.2 ≠ ["*"] := fun he => h (by rw [he]; simp)
    simp [h, hne]

/-! ## Idempotence of tracking an already-present mark -/

theorem trackInsert_id {p : ParsedName} {a : Assets} {cols : ColSet}
    (h : lookupCols a (pyUpper p.database) (pyUpper p.schema)
      (pyUpper p.table) = some cols)
    (hm : trackMark p ∈ cols) : trackInsert p a = a := by
  obtain ⟨schs, tbls, h1, h2, h3⟩ := lookupCols_decomp h
  have g3 : upsert (pyUpper p.table) (addCol (trackMark p)) [] tbls = tbls :=
    upsert_of_lookupA tbls h3 (addCol_of_mem hm) []
  have g2 : upsert (pyUpper p.schema)
      (fun tbls => upsert (pyUpper p.table) (addCol (trackMark p)) [] tbls)
      [] schs = schs :=
    upsert_of_lookupA schs h2 g3 []
  exact upsert_of_lookupA a h1 g2 []

/-! ## Claims about the access tracker -/

/-- C7: tracking two names that denote the same (database, schema, table)
— compared case-insensitively, keys being upper-cased at insertion —
merges their column marks into the stored set as a duplicate-free union,
and re-tracking either name again leaves the tracker state unchanged
(idempotent union). -/
theorem claim_C7_track_merge_idempotent (s : TrackerState)
    (n1 n2 : String) (p1 p2 : ParsedName)
    (h1 : (parseQualifiedName n1).1 = some p1)
    (h2 : (parseQualifiedName n2).1 = some p2)
    (hd : pyUpper p1.database = pyUpper p2.database)
    (hs : pyUpper p1.schema = pyUpper p2.schema)
    (ht : pyUpper p1.table = pyUpper p2.table)
    (hw : ∀ cols, lookupCols s.accessedAssets (pyUpper p1.database)
      (pyUpper p1.schema) (pyUpper p1.table) = some cols → cols.Nodup) :
    (∃ cols₂,
      lookupCols (trackAssetAccess s [n1, n2]).accessedAssets
          (pyUpper p1.database) (pyUpper p1.schema) (pyUpper p1.table)
        = some cols₂ ∧
      (∀ x, x ∈ cols₂ ↔
        (x ∈ (lookupCols s.accessedAssets (pyUpper p1.database)
          (pyUpper p1.schema) (pyUpper p1.table)).getD [] ∨
         x = trackMark p1 ∨ x = trackMark p2)) ∧
      cols₂.Nodup) ∧
    trackAssetAccess (trackAssetAccess s [n1, n2]) [n1]
      = trackAssetAccess s [n1, n2] ∧
    trackAssetAccess (trackAssetAccess s [n1, n2]) [n2]
      = trackAssetAccess s [n1, n2] := by
  have e1 : trackOne s n1 =
      { s with accessedAssets := trackInsert p1 s.accessedAssets } := by
    unfold trackOne
    rw [h1]
  have e2 : trackAssetAccess s [n1, n2] =
      { s with accessedAssets :=
          (trackInsert p2 (trackInsert p1 s.accessedAssets)) } := by
    show trackOne (trackOne s n1) n2 = _
    rw [e1]
    unfold trackOne
    rw [h2]
  have hlk2 : lookupCols
      (trackInsert p2 (trackInsert p1 s.accessedAssets))
      (pyUpper p1.database) (pyUpper p1.schema) (pyUpper p1.table)
      = some (addCol (trackMark p2) (addCol (trackMark p1)
          ((lookupCols s.accessedAssets (pyUpper p1.database)
            (pyUpper p1.schema) (pyUpper p1.table)).getD []))) := by
    rw [lookupCols_trackInsert, if_pos ⟨hd, hs, ht⟩,
      lookupCols_trackInsert, if_pos ⟨rfl, rfl, rfl⟩]
    simp
  have hm1 : trackMark p1 ∈ addCol (trackMark p2) (addCol (trackMark p1)
      ((lookupCols s.accessedAssets (pyUpper p1.database)
        (pyUpper p1.schema) (pyUpper p1.table)).getD [])) :=
    (mem_addCol _ _ _).mpr (Or.inl ((mem_addCol _ _ _).mpr (Or.inr rfl)))
  have hm2 : trackMark p2 ∈ addCol (trackMark p2) (addCol (trackMark p1)
      ((lookupCols s.accessedAssets (pyUpper p1.database)
        (pyUpper p1.schema) (pyUpper p1.table)).getD [])) :=
    (mem_addCol _ _ _).mpr (Or.inr rfl)
  refine ⟨⟨_, by rw [e2]; exact hlk2, fun x => ?_, ?_⟩, ?_, ?_⟩
  · rw [mem_addCol, mem_addCol, or_assoc]
  · have hbase : ((lookupCols s.accessedAssets (pyUpper p1.database)
        (pyUpper p1.schema) (pyUpper p1.table)).getD []).Nodup := by
      rcases hb : lookupCols s.accessedAssets (pyUpper p1.database)
          (pyUpper p1.schema) (pyUpper p1.table) with _ | cols0
      · simp
      · simpa using hw cols0 hb
    exact addCol_nodup (addCol_nodup hbase)
  · rw [e2]
    show trackOne { s with accessedAssets :=
      (trackInsert p2 (trackInsert p1 s.accessedAssets)) } n1 = _
    unfold trackOne
    rw [h1]
    show ({ s with accessedAssets := (trackInsert p1
        (trackInsert p2 (trackInsert p1 s.accessedAssets))) } : TrackerState)
      = { s with accessedAssets :=
          (trackInsert p2 (trackInsert p1 s.accessedAssets)) }
    rw [trackInsert_id hlk2 hm1]
  · rw [e2]
    show trackOne { s with accessedAssets :=
      (trackInsert p2 (trackInsert p1 s.accessedAssets)) } n2 = _
    unfold trackOne
    rw [h2]
    show ({ s with accessedAssets := (trackInsert p2
        (trackInsert p2 (trackInsert p1 s.accessedAssets))) } : TrackerState)
      = { s with accessedAssets :=
          (trackInsert p2 (trackInsert p1 s.accessedAssets)) }
    have hlk2' := hlk2
    have hm2' := hm2
    rw [hd, hs, ht] at hlk2' hm2'
    rw [trackInsert_id hlk2' hm2']

/-- Witness for C7: two spellings of the same table with different
columns, starting from a fresh tracker. -/
theorem claim_C7_witness :
    (∃ cols₂,
      lookupCols (trackAssetAccess initTracker
          ["db.sch.tbl.col_a", "DB.SCH.TBL.col_b"]).accessedAssets
          (pyUpper "db") (pyUpper "sch") (pyUpper "tbl") = some cols₂ ∧
      (∀ x, x ∈ cols₂ ↔
        (x ∈ (lookupCols initTracker.accessedAssets (pyUpper "db")
          (pyUpper "sch") (pyUpper "tbl")).getD [] ∨
         x = trackMark ⟨none, "db", "sch", "tbl", some "col_a"⟩ ∨
         x = trackMark ⟨none, "DB", "SCH", "TBL", some "col_b"⟩)) ∧
      cols₂.Nodup) ∧
    trackAssetAccess (trackAssetAccess initTracker
        ["db.sch.tbl.col_a", "DB.SCH.TBL.col_b"]) ["db.sch.tbl.col_a"]
      = trackAssetAccess initTracker
          ["db.sch.tbl.col_a", "DB.SCH.TBL.col_b"] ∧
    trackAssetAccess (trackAssetAccess initTracker
        ["db.sch.tbl.col_a", "DB.SCH.TBL.col_b"]) ["DB.SCH.TBL.col_b"]
      = trackAssetAccess initTracker
          ["db.sch.tbl.col_a", "DB.SCH.TBL.col_b"] :=
  claim_C7_track_merge_idempotent initTracker
    "db.sch.tbl.col_a" "DB.SCH.TBL.col_b"
    ⟨none, "db", "sch", "tbl", some "col_a"⟩
    ⟨none, "DB", "SCH", "TBL", some "col_b"⟩
    (by decide) (by decide) (by decide) (by decide) (by decide)
    (fun cols h => by simp [initTracker, lookupCols_def, lookupA] at h)

/-- C6: once a wildcard access is tracked for a table, the summary
reports columns exactly `["*"]` for that table after any further track
calls, the table counts once in `total_tables`, and the wildcard table
contributes nothing to `total_columns` (which equals the sum of the
non-wildcard entries' column counts). -/
theorem claim_C6_wildcard_summary (s : TrackerState) (names : List String)
    (d sc t : String) (cols : ColSet)
    (hwf : AssetsWF s.accessedAssets)
    (hlk : lookupCols s.accessedAssets d sc t = some cols)
    (hstar : "*" ∈ cols) :
    (∀ info ∈ (getTrackedAssets (trackAssetAccess s names)).tables,
        info.database = d → info.schema = sc → info.table = t →
        info.columns = ["*"]) ∧
    (∃ info ∈ (getTrackedAssets (trackAssetAccess s names)).tables,
        info.database = d ∧ info.schema = sc ∧ info.table = t ∧
        info.columns = ["*"]) ∧
    (getTrackedAssets (trackAssetAccess s names)).total_tables =
      (getTrackedAssets (trackAssetAccess s names)).tables.length ∧
    (getTrackedAssets (trackAssetAccess s names)).total_columns =
      ((getTrackedAssets (trackAssetAccess s names)).tables.map
        (fun info => if info.columns = ["*"] then 0
          else info.columns.length)).sum := by
  have hwf' := AssetsWF_track names s hwf
  obtain ⟨cols', hlk', hstar'⟩ := lookupCols_track_mono names s hlk hstar
  have hsum : getTrackedAssets (trackAssetAccess s names) =
      ⟨(flattenAssets (trackAssetAccess s names).accessedAssets).map mkInfo,
       (flattenAssets (trackAssetAccess s names).accessedAssets).length,
       ((flattenAssets (trackAssetAccess s names).accessedAssets).map
         colContrib).sum⟩ := by
    unfold getTrackedAssets
    rw [foldl_summaryStep]
    simp
  refine ⟨?_, ?_, ?_, ?_⟩
  · intro info hinfo hdb hsc htb
    rw [hsum] at hinfo
    simp only [List.mem_map] at hinfo
    obtain ⟨⟨⟨d', sc', t'⟩, cols''⟩, hmem, hinfoeq⟩ := hinfo
    subst hinfoeq
    simp only [mkInfo] at hdb hsc htb ⊢
    subst hdb; subst hsc; subst htb
    have := lookupCols_of_mem_flatten hwf' hmem
    rw [hlk'] at this
    have hce : cols'' = cols' := by
      injection this with hv
      exact hv.symm
    subst hce
    simp [hstar']
  · rw [hsum]
    refine ⟨mkInfo ((d, sc, t), cols'), ?_, ?_⟩
    · exact List.mem_map_of_mem mkInfo (mem_flatten_of_lookupCols hlk')
    · simp [mkInfo, hstar']
  · rw [hsum]
    simp
  · rw [hsum]
    simp only [List.map_map]
    congr 1
    refine List.map_congr_left (fun e he => ?_)
    simpa using (colContrib_mkInfo e).symm

/-- Witness for C6: the wildcard survives tracking a further column and
the summary reports it. -/
theorem claim_C6_witness :
    (TableInfo.mk "D" "S" "T" ["*"]).columns = ["*"] ∧
    (getTrackedAssets (trackAssetAccess trackerW6 ["d.s.t.col_b"])).total_tables
      = (getTrackedAssets
          (trackAssetAccess trackerW6 ["d.s.t.col_b"])).tables.length :=
  ⟨(claim_C6_wildcard_summary trackerW6 ["d.s.t.col_b"] "D" "S" "T"
      ["*", "COL_A"] ⟨by decide, by decide⟩ (by decide) (by decide)).1
      ⟨"D", "S", "T", ["*"]⟩ (by decide) rfl rfl rfl,
   (claim_C6_wildcard_summary trackerW6 ["d.s.t.col_b"] "D" "S" "T"
      ["*", "COL_A"] ⟨by decide, by decide⟩ (by decide) (by decide)).2.2.1⟩

/-! ## Commit-loop invariants -/

theorem LoopInv_refl (st : LoopSt) : LoopInv st st [] := by
  refine ⟨⟨fun p hp => hp, fun h => h, ?_, ?_, ?_⟩, ?_⟩ <;> simp [errCount]

theorem LoopInv_of_frame {st st' : LoopSt}
    (hc : st'.created = st.created) (he : st'.errors = st.errors) :
    LoopInv st st' [] := by
  refine ⟨⟨?_, ?_, ?_, ?_, ?_⟩, ?_⟩ <;> simp [hc, he, errCount]

theorem EdgeInv_comp {c c₁ c₂ : List (Int × Int)} {tr1 tr2 : List EdgeCall}
    (h1 : EdgeInv c c₁ tr1) (h2 : EdgeInv c₁ c₂ tr2) :
    EdgeInv c c₂ (tr1 ++ tr2) := by
  obtain ⟨m1, n1, ni1, ok1, nd1⟩ := h1
  obtain ⟨m2, n2, ni2, ok2, nd2⟩ := h2
  refine ⟨fun p hp => m2 p (m1 p hp), fun h => n2 (n1 h), ?_, ?_, ?_⟩
  · intro x hx
    rcases List.mem_append.mp hx with h | h
    · exact ni1 x h
    · exact fun hin => ni2 x h (m1 _ hin)
  · intro x hx hok
    rcases List.mem_append.mp hx with h | h
    · exact m2 _ (ok1 x h hok)
    · exact ok2 x h hok
  · rw [List.filter_append, List.map_append]
    refine List.Nodup.append nd1 nd2 ?_
    intro p hp1 hp2
    simp only [List.mem_map, List.mem_filter] at hp1 hp2
    obtain ⟨x1, ⟨hx1, hok1⟩, rfl⟩ := hp1
    obtain ⟨x2, ⟨hx2, hok2⟩, hpe⟩ := hp2
    have hin : pairOf x1 ∈ c₁ := ok1 x1 hx1 (by simpa using hok1)
    exact ni2 x2 hx2 (by rw [hpe]; exact hin)

theorem LoopInv_comp {st st₁ st₂ : LoopSt} {tr1 tr2 : List EdgeCall}
    (h1 : LoopInv st st₁ tr1) (h2 : LoopInv st₁ st₂ tr2) :
    LoopInv st st₂ (tr1 ++ tr2) := by
  refine ⟨EdgeInv_comp h1.1 h2.1, ?_⟩
  have he : errCount (tr1 ++ tr2) = errCount tr1 + errCount tr2 := by
    simp [errCount, List.filter_append]
  rw [he, h2.2, h1.2]
  omega

theorem attemptEdge_inv (env : Env) (agentId nodeId : Int)
    (kind : EdgeCallKind) (name : String) (st : LoopSt) :
    LoopInv st (attemptEdge env agentId nodeId kind name st).1
      (attemptEdge env agentId nodeId kind name st).2 := by
  unfold attemptEdge
  by_cases hmem : (nodeId, agentId) ∈ st.created
  · rw [if_pos hmem]
    exact LoopInv_refl st
  · rw [if_neg hmem]
    by_cases hok : env.createEdge nodeId agentId
    · rw [if_pos hok]
      refine ⟨⟨?_, ?_, ?_, ?_, ?_⟩, ?_⟩
      · intro p hp
        exact List.mem_append_left _ hp
      · intro h
        simp [List.nodup_append, h, hmem]
      · intro x hx
        simp only [List.mem_singleton] at hx
        subst hx
        simpa [pairOf] using hmem
      · intro x hx _
        simp only [List.mem_singleton] at hx
        subst hx
        simp [pairOf]
      · simp
      · simp [errCount]
    · rw [if_neg hok]
      cases kind
      · refine ⟨⟨fun p hp => hp, fun h => h, ?_, ?_, ?_⟩, ?_⟩
        · intro x hx
          simp only [List.mem_singleton] at hx
          subst hx
          simpa [pairOf] using hmem
        · intro x hx hco
          simp only [List.mem_singleton] at hx
          subst hx
          exact absurd hco (by simp)
        · simp
        · simp [errCount]
      · refine ⟨⟨fun p hp => hp, fun h => h, ?_, ?_, ?_⟩, ?_⟩
        · intro x hx
          simp only [List.mem_singleton] at hx
          subst hx
          simpa [pairOf] using hmem
        · intro x hx hco
          simp only [List.mem_singleton] at hx
          subst hx
          exact absurd hco (by simp)
        · simp
        · simp [errCount]
      · refine ⟨⟨fun p hp => hp, fun h => h, ?_, ?_, ?_⟩, ?_⟩
        · intro x hx
          simp only [List.mem_singleton] at hx
          subst hx
          simpa [pairOf] using hmem
        · intro x hx hco
          simp only [List.mem_singleton] at hx
          subst hx
          exact absurd hco (by simp)
        · simp
        · simp [errCount]

theorem findAssetNodeId_frame (env : Env) (cl : Bool) (db sch tbl : String)
    (col : Option String) (st : LoopSt) :
    (findAssetNodeId env cl db sch tbl col st).2.created = st.created ∧
    (findAssetNodeId env cl db sch tbl col st).2.errors = st.errors := by
  unfold findAssetNodeId
  dsimp only
  repeat' split
  all_goals exact ⟨rfl, rfl⟩

theorem processColumn_inv (env : Env) (cl : Bool) (agentId : Int)
    (db sch tbl col : String) (st : LoopSt) :
    LoopInv st (processColumn env cl agentId db sch tbl col st).1
      (processColumn env cl agentId db sch tbl col st).2 := by
  have fr1 := findAssetNodeId_frame env cl db sch tbl (some col) st
  have fr2 := findAssetNodeId_frame env cl db sch tbl none
    (findAssetNodeId env cl db sch tbl (some col) st).2
  simp only [processColumn]
  split
  · have base : LoopInv st
        (findAssetNodeId env cl db sch tbl (some col) st).2 [] :=
      LoopInv_of_frame fr1.1 fr1.2
    simpa using LoopInv_comp base (attemptEdge_inv env agentId _ _ _ _)
  · split
    · have base : LoopInv st
          (findAssetNodeId env cl db sch tbl none
            (findAssetNodeId env cl db sch tbl (some col) st).2).2 [] := by
        refine LoopInv_of_frame ?_ ?_
        · rw [fr2.1, fr1.1]
        · rw [fr2.2, fr1.2]
      simpa using LoopInv_comp base (attemptEdge_inv env agentId _ _ _ _)
    · refine LoopInv_of_frame ?_ ?_
      · show (findAssetNodeId env cl db sch tbl none
          (findAssetNodeId env cl db sch tbl (some col) st).2).2.created = _
        rw [fr2.1, fr1.1]
      · show (findAssetNodeId env cl db sch tbl none
          (findAssetNodeId env cl db sch tbl (some col) st).2).2.errors = _
        rw [fr2.2, fr1.2]

theorem foldTr_inv {α : Type} (f : α → LoopSt → LoopSt × List EdgeCall)
    (hf : ∀ x st, LoopInv st (f x st).1 (f x st).2)
    (l : List α) (st : LoopSt) :
    LoopInv st (foldTr f l st).1 (foldTr f l st).2 := by
  induction l generalizing st with
  | nil => exact LoopInv_refl st
  | cons x xs ih =>
      show LoopInv st (foldTr f xs (f x st).1).1
        ((f x st).2 ++ (foldTr f xs (f x st).1).2)
      exact LoopInv_comp (hf x st) (ih (f x st).1)

theorem processAsset_inv (env : Env) (cl : Bool) (agentId : Int)
    (entry : (String × String × String) × ColSet) (st : LoopSt) :
    LoopInv st (processAsset env cl agentId entry st).1
      (processAsset env cl agentId entry st).2 := by
  have fr1 := findAssetNodeId_frame env cl entry.1.1 entry.1.2.1
    entry.1.2.2 none st
  simp only [processAsset]
  split
  · split
    · have base : LoopInv st
          (findAssetNodeId env cl entry.1.1 entry.1.2.1 entry.1.2.2
            none st).2 [] :=
        LoopInv_of_frame fr1.1 fr1.2
      simpa using LoopInv_comp base (attemptEdge_inv env agentId _ _ _ _)
    · exact LoopInv_of_frame fr1.1 fr1.2
  · exact foldTr_inv _ (fun col st' => processColumn_inv env cl agentId
      entry.1.1 entry.1.2.1 entry.1.2.2 col st') entry.2 st

theorem commitLoop_inv (env : Env) (cl : Bool) (agentId : Int)
    (s1 : TrackerState) :
    LoopInv ⟨s1.nodeCache, s1.createdEdges, 0, [], []⟩
      (commitLoop env cl agentId s1).1 (commitLoop env cl agentId s1).2 :=
  foldTr_inv _ (fun e st => processAsset_inv env cl agentId e st) _ _

/-! ## Frame of the agent-node bootstrap -/

theorem ensureAgentNode_frame (env : Env) (s : TrackerState) :
    ∃ a, (ensureAgentNode env s).2 = { s with agentNodeId := a } := by
  unfold ensureAgentNode
  repeat' split
  all_goals exact ⟨_, rfl⟩

theorem ensureAgentNode_createdEdges (env : Env) (s : TrackerState) :
    (ensureAgentNode env s).2.createdEdges = s.createdEdges := by
  obtain ⟨a, ha⟩ := ensureAgentNode_frame env s
  rw [ha]

theorem ensureAgentNode_nodeCache (env : Env) (s : TrackerState) :
    (ensureAgentNode env s).2.nodeCache = s.nodeCache := by
  obtain ⟨a, ha⟩ := ensureAgentNode_frame env s
  rw [ha]

/-! ## Run-level invariant of the edge commit -/

theorem createLineageEdges_inv (env : Env) (s : TrackerState) :
    EdgeInv s.createdEdges (createLineageEdges env s).2.1.createdEdges
      (createLineageEdges env s).2.2 := by
  simp only [createLineageEdges]
  split
  · exact (LoopInv_refl ⟨[], s.createdEdges, 0, [], []⟩).1
  · split
    · exact (LoopInv_refl ⟨[], s.createdEdges, 0, [], []⟩).1
    · split
      · rw [ensureAgentNode_createdEdges]
        exact (LoopInv_refl ⟨[], s.createdEdges, 0, [], []⟩).1
      · have h := (commitLoop_inv env s.hasClient
          ((ensureAgentNode env s).1.getD 0) (ensureAgentNode env s).2).1
        rw [ensureAgentNode_createdEdges] at h
        exact h

/-! ## Claims about `create_lineage_edges` -/

/-- C2: running the commit twice in a row without clearing issues no
edge-creation call for a pair already in the created-edge set after the
first run, no two successful calls across both runs share a
(node, agent) pair, and the created-edge set stays duplicate-free. -/
theorem claim_C2_commit_dedup (env : Env) (s : TrackerState)
    (hnd : s.createdEdges.Nodup) :
    (∀ x ∈ (createLineageEdges env (createLineageEdges env s).2.1).2.2,
        pairOf x ∉ (createLineageEdges env s).2.1.createdEdges) ∧
    ((((createLineageEdges env s).2.2 ++
        (createLineageEdges env (createLineageEdges env s).2.1).2.2).filter
          (fun x => x.ok)).map pairOf).Nodup ∧
    (createLineageEdges env
      (createLineageEdges env s).2.1).2.1.createdEdges.Nodup := by
  have i1 := createLineageEdges_inv env s
  have i2 := createLineageEdges_inv env (createLineageEdges env s).2.1
  have ic := EdgeInv_comp i1 i2
  exact ⟨i2.2.2.1, ic.2.2.2.2, i2.2.1 (i1.2.1 hnd)⟩

/-- Witness for C2: a successful commit followed by a repeat commit on
the concrete environment. -/
theorem claim_C2_witness :
    ((((createLineageEdges envOk trackerT).2.2 ++
        (createLineageEdges envOk
          (createLineageEdges envOk trackerT).2.1).2.2).filter
          (fun x => x.ok)).map pairOf).Nodup ∧
    (createLineageEdges envOk
      (createLineageEdges envOk trackerT).2.1).2.1.createdEdges.Nodup :=
  (claim_C2_commit_dedup envOk trackerT (by decide)).2

/-- C3: with a client configured and at least one tracked asset, if
agent-node resolution returns `None` the commit returns
`{success: false, error: "Failed to create or find agent node"}` and
issues zero edge-creation calls. -/
theorem claim_C3_agent_failure (env : Env) (s : TrackerState)
    (hcl : s.hasClient = true) (hne : s.accessedAssets ≠ [])
    (hag : (ensureAgentNode env s).1 = none) :
    createLineageEdges env s =
      ({ success := false,
         error := some "Failed to create or find agent node" },
       (ensureAgentNode env s).2, []) := by
  have hieq : s.accessedAssets.isEmpty = false := by
    cases hx : s.accessedAssets
    · exact absurd hx hne
    · rfl
  simp [createLineageEdges, hcl, hieq, hag, optTruthy]

/-- Witness for C3: a tracker with one tracked asset on an environment
whose search and creation calls all fail. -/
theorem claim_C3_witness :
    createLineageEdges envFail trackerT =
      ({ success := false,
         error := some "Failed to create or find agent node" },
       (ensureAgentNode envFail trackerT).2, []) :=
  claim_C3_agent_failure envFail trackerT (by decide) (by decide) (by decide)

/-- C5 as stated is false: a failing table-level fallback edge-creation
call (issued when the column node is unresolved) leaves the errors list
empty.  On this concrete input the run issues exactly one edge-creation
call, the call fails, yet `errors` is `None` and `success` is true. -/
theorem claim_C5_counterexample :
    (createLineageEdges envC5 trackerCol).2.2 =
      [⟨3, 5, EdgeCallKind.fallback, false⟩] ∧
    (createLineageEdges envC5 trackerCol).1.errors = none ∧
    (createLineageEdges envC5 trackerCol).1.success = true := by decide

/-- C5 amended: in a commit run that reaches the main loop, the
returned success flag is true exactly when the returned errors list is
absent, and the number of recorded errors equals the number of failed
edge-creation calls other than table-level fallback calls (whose
failures the code does not record). -/
theorem claim_C5_errors_accounting (env : Env) (s : TrackerState)
    (hcl : s.hasClient = true) (hne : s.accessedAssets ≠ [])
    (hag : optTruthy (ensureAgentNode env s).1 = true) :
    ((createLineageEdges env s).1.success = true ↔
      (createLineageEdges env s).1.errors = none) ∧
    ((createLineageEdges env s).1.errors.getD []).length =
      errCount (createLineageEdges env s).2.2 := by
  have hieq : s.accessedAssets.isEmpty = false := by
    cases hx : s.accessedAssets
    · exact absurd hx hne
    · rfl
  have hsucc : (createLineageEdges env s).1.success =
      (commitLoop env s.hasClient ((ensureAgentNode env s).1.getD 0)
        (ensureAgentNode env s).2).1.errors.isEmpty := by
    simp [createLineageEdges, hcl, hieq, hag]
  have herr : (createLineageEdges env s).1.errors =
      (if (commitLoop env s.hasClient ((ensureAgentNode env s).1.getD 0)
          (ensureAgentNode env s).2).1.errors.isEmpty then none
       else some (commitLoop env s.hasClient
          ((ensureAgentNode env s).1.getD 0)
          (ensureAgentNode env s).2).1.errors) := by
    simp [createLineageEdges, hcl, hieq, hag]
  have htr : (createLineageEdges env s).2.2 =
      (commitLoop env s.hasClient ((ensureAgentNode env s).1.getD 0)
        (ensureAgentNode env s).2).2 := by
    simp [createLineageEdges, hcl, hieq, hag]
  have hlen := (commitLoop_inv env s.hasClient
    ((ensureAgentNode env s).1.getD 0) (ensureAgentNode env s).2).2
  simp only [List.length_nil, Nat.zero_add] at hlen
  rw [hsucc, herr, htr]
  by_cases hemp : (commitLoop env s.hasClient
      ((ensureAgentNode env s).1.getD 0)
      (ensureAgentNode env s).2).1.errors.isEmpty
  · rw [if_pos hemp]
    have hz : (commitLoop env s.hasClient ((ensureAgentNode env s).1.getD 0)
        (ensureAgentNode env s).2).1.errors.length = 0 := by
      simpa [List.isEmpty_iff] using congrArg List.length
        (List.isEmpty_iff.mp hemp)
    simpa [hemp] using hz ▸ hlen
  · rw [if_neg hemp]
    simpa [hemp] using hlen

/-- Witness for C5 (amended): a failing wildcard table edge is recorded
and the success flag is false accordingly. -/
theorem claim_C5_witness :
    ((createLineageEdges envC5 trackerTA).1.success = true ↔
      (createLineageEdges envC5 trackerTA).1.errors = none) ∧
    ((createLineageEdges envC5 trackerTA).1.errors.getD []).length =
      errCount (createLineageEdges envC5 trackerTA).2.2 :=
  claim_C5_errors_accounting envC5 trackerTA (by decide) (by decide)
    (by decide)

/-! ## Claims about `cleanup_old_edges` -/

theorem sweepEdge_trace (env : Env) (agentId cutoff : Int) (acc : SweepAcc)
    (edge : LineageEdge) :
    (sweepEdge env agentId cutoff acc edge).trace = acc.trace ∨
    ((sweepEdge env agentId cutoff acc edge).trace = acc.trace ++ [edge] ∧
      (edge.upstream_node_id = some agentId ∨
       edge.downstream_node_id = some agentId)) := by
  unfold sweepEdge
  split
  · exact Or.inl rfl
  · rename_i hnot
    rw [not_and_or, not_not, not_not] at hnot
    dsimp only
    split
    · exact Or.inl rfl
    · exact Or.inl rfl
    · exact Or.inl rfl
    · split
      · split
        · exact Or.inr ⟨rfl, hnot⟩
        · exact Or.inr ⟨rfl, hnot⟩
      · exact Or.inl rfl

theorem sweepFold_trace_agent (env : Env) (agentId cutoff : Int)
    (edges : List LineageEdge) (acc : SweepAcc)
    (hacc : ∀ e ∈ acc.trace, e.upstream_node_id = some agentId ∨
      e.downstream_node_id = some agentId) :
    ∀ e ∈ (edges.foldl (sweepEdge env agentId cutoff) acc).trace,
      e.upstream_node_id = some agentId ∨
      e.downstream_node_id = some agentId := by
  induction edges generalizing acc with
  | nil => exact hacc
  | cons x xs ih =>
      refine ih (sweepEdge env agentId cutoff acc x) ?_
      intro e he
      rcases sweepEdge_trace env agentId cutoff acc x with h | ⟨h, hx⟩
      · rw [h] at he
        exact hacc e he
      · rw [h] at he
        rcases List.mem_append.mp he with h' | h'
        · exact hacc e h'
        · simp only [List.mem_singleton] at h'
          subst h'
          exact hx

/-- C1: for every edge returned by the remote get-edges call whose
endpoints both differ from the resolved agent node id, `cleanup_old_edges`
never issues a delete request for that edge, regardless of its timestamp
and of the retention value. -/
theorem claim_C1_cleanup_only_agent_edges (env : Env) (now r : Int)
    (s : TrackerState) (aid : Int) (s₂ : TrackerState)
    (er : EdgesResult) (e : LineageEdge)
    (hens : ensureAgentNode env s = (some aid, s₂))
    (hedges : env.getEdgesForNode aid = some er)
    (he : e ∈ er.edges)
    (hup : e.upstream_node_id ≠ some aid)
    (hdn : e.downstream_node_id ≠ some aid) :
    e ∉ (cleanupOldEdges env now r s).2.2 := by
  intro hmem
  have hcl : s.hasClient = true := by
    by_contra hc
    have hcf : s.hasClient = false := by simpa using hc
    unfold ensureAgentNode at hens
    rw [hcf] at hens
    simp at hens
  by_cases haid : aid = 0
  · subst haid
    simp [cleanupOldEdges, hcl, hens, optTruthy] at hmem
  · by_cases herr : er.error
    · simp [cleanupOldEdges, hcl, hens, optTruthy, haid, hedges, herr]
        at hmem
    · have htr : (cleanupOldEdges env now r s).2.2 =
          (er.edges.foldl (sweepEdge env aid (now - r * 86400))
            ⟨0, 0, [], []⟩).trace := by
        simp [cleanupOldEdges, hcl, hens, optTruthy, haid, hedges, herr]
      rw [htr] at hmem
      have := sweepFold_trace_agent env aid (now - r * 86400) er.edges
        ⟨0, 0, [], []⟩ (by intro x hx; simp at hx) e hmem
      rcases this with h | h
      · exact hup h
      · exact hdn h

/-- Witness for C1: the non-agent edge of the concrete response never
receives a delete request. -/
theorem claim_C1_witness :
    edgeB ∉ (cleanupOldEdges envSweep 0 30 trackerA).2.2 :=
  claim_C1_cleanup_only_agent_edges envSweep 0 30 trackerA 5 trackerA
    erW edgeB (by decide) (by decide) (by decide) (by decide) (by decide)

/-- C8 failing input, evaluated on the embedded code: with
retention_days = 0 (cutoff = now) the agent edge whose `created_at`
carried a timezone (`edgeZ`, in the past) is NOT deleted — Python raises
`TypeError` comparing the offset-aware datetime with the offset-naive
cutoff, the per-edge handler records an error, and no delete request is
issued for it — while the offset-free old agent edge (`edgeA`) is
deleted.  The claim says a delete request is issued for every agent edge
with a past timestamp. -/
theorem claim_C8_timezone_divergence :
    (cleanupOldEdges envTz 0 0 trackerA).2.2 = [edgeA] ∧
    (cleanupOldEdges envTz 0 0 trackerA).1.edges_deleted = some 1 ∧
    (cleanupOldEdges envTz 0 0 trackerA).1.agent_edges_checked = some 2 ∧
    (cleanupOldEdges envTz 0 0 trackerA).1.success = false ∧
    (cleanupOldEdges envTz 0 0 trackerA).1.errors =
      some ["Error processing edge 1"] := by decide

end LineageTracker
